import Mathlib

/-!
Verification of the conversation-orchestrator core of the
Emergent-YC-Hackathon browser extension.

The development shallowly embeds the relevant TypeScript sources:

* `src/background/script-execution-manager.ts` — per-tab FIFO queue of
  pending in-page script executions (enqueue / poll / resolve / reject /
  timeout / tab teardown);
* `src/background/conversation-manager.ts` (the revision that keeps
  message history, trims it, and builds per-step assistant messages) —
  conversation state machine, outbound chunk buffer, history trimming,
  stream folding, terminal transitions;
* `src/background/emergent-anthropic-provider.ts` — the custom model
  client: SSE events folded into AI-SDK stream parts, with per-index
  reassembly of incremental tool-argument JSON;
* `src/background/cache-state.ts` — network-cache entry shape and the
  read API consumed by the tools (`getEntriesForTab`, `getCacheEntry`).

JavaScript strings are modelled as `List Char` where character-level
operations (`substring`, `length`) matter, and as `String` elsewhere.
JavaScript `Map`s are modelled as functions into `Option`; queue arrays
as `List`.  Wall-clock timestamps are carried as `Nat` milliseconds.
-/

namespace SecShield

/-! ## A model of JavaScript `JSON.parse` success

`JSON.parse` is the host primitive the model client uses to validate
accumulated tool-argument text.  `isValidJson` decides whether a string
is a syntactically valid JSON document (value with optional surrounding
whitespace), following the JSON grammar that `JSON.parse` accepts. -/

def isJsonWs (c : Char) : Bool :=
  c == ' ' || c == '\t' || c == '\n' || c == '\r'

def skipWs : List Char → List Char
  | [] => []
  | c :: cs => if isJsonWs c then skipWs cs else c :: cs

def isHexDigitChar (c : Char) : Bool :=
  c.isDigit || ('a' ≤ c && c ≤ 'f') || ('A' ≤ c && c ≤ 'F')

/-- Consume the exact literal characters `p` from the front of the input. -/
def expectChars : List Char → List Char → Option (List Char)
  | [], cs => some cs
  | p :: ps, c :: cs => if c == p then expectChars ps cs else none
  | _ :: _, [] => none

/-- Consume the remainder of a JSON string (the opening quote has already
been consumed); returns the input after the closing quote. -/
def parseStringRest : Nat → List Char → Option (List Char)
  | 0, _ => none
  | _ + 1, [] => none
  | fuel + 1, c :: cs =>
    if c == '"' then some cs
    else if c == '\\' then
      match cs with
      | [] => none
      | e :: cs2 =>
        if e == '"' || e == '\\' || e == '/' || e == 'b' || e == 'f'
            || e == 'n' || e == 'r' || e == 't' then
          parseStringRest fuel cs2
        else if e == 'u' then
          match cs2 with
          | h1 :: h2 :: h3 :: h4 :: cs3 =>
            if isHexDigitChar h1 && isHexDigitChar h2
                && isHexDigitChar h3 && isHexDigitChar h4 then
              parseStringRest fuel cs3
            else none
          | _ => none
        else none
    else if c.toNat < 32 then none
    else parseStringRest fuel cs

/-- Consume the exponent part of a JSON number, if present. -/
def parseExpPart (cs : List Char) : Option (List Char) :=
  match cs with
  | c :: r =>
    if c == 'e' || c == 'E' then
      let r1 := match r with
        | s :: r2 => if s == '+' || s == '-' then r2 else s :: r2
        | [] => []
      match r1 with
      | d :: r3 => if d.isDigit then some (r3.dropWhile Char.isDigit) else none
      | [] => none
    else some (c :: r)
  | [] => some []

/-- Consume the fractional part of a JSON number, if present. -/
def parseFracPart (cs : List Char) : Option (List Char) :=
  match cs with
  | '.' :: r =>
    match r with
    | d :: r2 => if d.isDigit then some (r2.dropWhile Char.isDigit) else none
    | [] => none
  | _ => some cs

/-- Consume a JSON number (the whole token, starting at a minus sign or a
digit). -/
def parseNumber (cs : List Char) : Option (List Char) :=
  let cs1 := match cs with
    | '-' :: r => r
    | _ => cs
  match cs1 with
  | '0' :: r => (parseFracPart r).bind parseExpPart
  | c :: r =>
    if c.isDigit then ((r.dropWhile Char.isDigit) |> parseFracPart).bind parseExpPart
    else none
  | [] => none

/-- Parser modes: a full value, the tail of an array, the tail of an
object. -/
inductive JMode where
  | value
  | arrayLoop
  | objectLoop
deriving Repr, DecidableEq

/-- Fuel-indexed recursive-descent recognizer for JSON.  Returns the
remaining input after the recognized construct, or `none` on a syntax
error. -/
def jparse : Nat → JMode → List Char → Option (List Char)
  | 0, _, _ => none
  | fuel + 1, .value, cs =>
    match skipWs cs with
    | [] => none
    | c :: r =>
      if c == 'n' then expectChars ['u', 'l', 'l'] r
      else if c == 't' then expectChars ['r', 'u', 'e'] r
      else if c == 'f' then expectChars ['a', 'l', 's', 'e'] r
      else if c == '"' then parseStringRest (r.length + 1) r
      else if c == '[' then
        match skipWs r with
        | ']' :: r2 => some r2
        | r2 => jparse fuel .arrayLoop r2
      else if c == '\x7b' then
        match skipWs r with
        | '\x7d' :: r2 => some r2
        | r2 => jparse fuel .objectLoop r2
      else if c == '-' || c.isDigit then parseNumber (c :: r)
      else none
  | fuel + 1, .arrayLoop, cs =>
    match jparse fuel .value cs with
    | none => none
    | some rest =>
      match skipWs rest with
      | ',' :: r => jparse fuel .arrayLoop r
      | ']' :: r => some r
      | _ => none
  | fuel + 1, .objectLoop, cs =>
    match skipWs cs with
    | '"' :: r =>
      match parseStringRest (r.length + 1) r with
      | none => none
      | some afterKey =>
        match skipWs afterKey with
        | ':' :: r2 =>
          match jparse fuel .value r2 with
          | none => none
          | some rest =>
            match skipWs rest with
            | ',' :: r3 => jparse fuel .objectLoop r3
            | '\x7d' :: r3 => some r3
            | _ => none
        | _ => none
    | _ => none

/-- Does `JSON.parse` accept this string?  (`true` exactly when the string
is a single JSON value with optional surrounding whitespace.) -/
def isValidJson (s : String) : Bool :=
  match jparse (2 * s.toList.length + 8) .value s.toList with
  | some rest => (skipWs rest).isEmpty
  | none => false

/-! ## Script Execution Manager

Embedding of `src/background/script-execution-manager.ts`.

A `PendingScriptExecution` mirrors the source interface (the `resolve` /
`reject` promise callbacks and the timer handle are modelled through the
`Settlement` log and the explicit `timeoutFire` event below, rather than
as stored closures).  `pendingExecutions` (a JS `Map<string, …>`) is a
function into `Option`; `executionQueue` (`Map<number, string[]>`) is a
function into `List String`, with a missing key and an empty array
identified — every source read treats them alike
(`!queue || queue.length === 0`). -/

def SCRIPT_EXECUTION_TIMEOUT_MS : Nat := 30000

structure PendingScriptExecution where
  id : String
  tabId : Nat
  code : String
  timestamp : Nat
deriving Repr, DecidableEq

/-- One-shot settlement of the promise returned by
`queueScriptExecution`: the observable effect of the manager calling the
stored `resolve` or `reject` callback. -/
inductive Settlement where
  | resolved (id : String) (result : String)
  | rejected (id : String) (error : String)
deriving Repr, DecidableEq

structure SEMState where
  pendingExecutions : String → Option PendingScriptExecution
  executionQueue : Nat → List String
  settlements : List Settlement

def SEMState.empty : SEMState :=
  { pendingExecutions := fun _ => none
    executionQueue := fun _ => []
    settlements := [] }

/-- Private helper `removeFromQueue(tabId, id)`: splice out the first
occurrence of `id` from the tab's queue (the source also deletes the map
entry once the array is empty, which the `Option`-free representation
renders as the empty list). -/
def SEMState.removeFromQueue (s : SEMState) (tabId : Nat) (id : String) : SEMState :=
  { s with
    executionQueue := fun t =>
      if t = tabId then (s.executionQueue tabId).erase id else s.executionQueue t }

/-- Delete `id` from the pending-executions table. -/
def SEMState.deletePending (s : SEMState) (id : String) : SEMState :=
  { s with
    pendingExecutions := fun i => if i = id then none else s.pendingExecutions i }

/-- Record a settlement of the promise belonging to execution `id`. -/
def SEMState.settle (s : SEMState) (ev : Settlement) : SEMState :=
  { s with settlements := s.settlements ++ [ev] }

/-- `queueScriptExecution(tabId, code)`: register a fresh
`PendingScriptExecution` (id generated from a monotone counter in the
source, here passed in with a freshness hypothesis where needed) and
append its id to the tab's FIFO queue.  The 30-second timer armed here is
modelled by the `timeoutFire` event. -/
def queueScriptExecution (s : SEMState) (tabId : Nat) (id code : String)
    (now : Nat) : SEMState :=
  { s with
    pendingExecutions := fun i =>
      if i = id then some ⟨id, tabId, code, now⟩ else s.pendingExecutions i
    executionQueue := fun t =>
      if t = tabId then s.executionQueue tabId ++ [id] else s.executionQueue t }

def timeoutMessage (id : String) : String :=
  "Script execution timeout for " ++ id

/-- The `setTimeout` callback armed by `queueScriptExecution`.  It can
only run while the entry is still pending (every path that removes the
entry also clears the timer) and only once 30 s have elapsed; under those
guards it deletes the pending entry, removes the id from the queue, and
rejects the promise with the timeout error. -/
def timeoutFire (s : SEMState) (id : String) (now : Nat) : SEMState :=
  match s.pendingExecutions id with
  | none => s
  | some e =>
    if e.timestamp + SCRIPT_EXECUTION_TIMEOUT_MS ≤ now then
      (((s.deletePending id).removeFromQueue e.tabId id).settle
        (.rejected id (timeoutMessage id)))
    else s

/-- `resolveScriptExecution(id, result)`: returns `false` (state
untouched) when no pending execution exists for `id`; otherwise clears
the timer, removes the id from queue and table, and resolves the
promise. -/
def resolveScriptExecution (s : SEMState) (id result : String) : SEMState × Bool :=
  match s.pendingExecutions id with
  | none => (s, false)
  | some e =>
    ((((s.removeFromQueue e.tabId id).deletePending id).settle
      (.resolved id result)), true)

/-- `rejectScriptExecution(id, error)`: mirror image of
`resolveScriptExecution` for the error path. -/
def rejectScriptExecution (s : SEMState) (id error : String) : SEMState × Bool :=
  match s.pendingExecutions id with
  | none => (s, false)
  | some e =>
    ((((s.removeFromQueue e.tabId id).deletePending id).settle
      (.rejected id error)), true)

/-- Recursive body of `getPendingScript`: inspect the queue head; an id
with no pending entry is an orphan — shift it off and try the next.  The
source's `if (!id) return null` guard (an empty-string id is falsy in
JavaScript) is kept.  Returns the result together with the queue as left
by the shifts. -/
def getPendingScriptGo (pending : String → Option PendingScriptExecution) :
    List String → Option (String × String) × List String
  | [] => (none, [])
  | id :: rest =>
    if id = "" then (none, id :: rest)
    else
      match pending id with
      | some e => (some (id, e.code), id :: rest)
      | none => getPendingScriptGo pending rest

/-- `getPendingScript(tabId)`: the runner's poll.  Serves at most the
queue head and never touches the pending-executions table. -/
def getPendingScript (s : SEMState) (tabId : Nat) :
    Option (String × String) × SEMState :=
  let r := getPendingScriptGo s.pendingExecutions (s.executionQueue tabId)
  (r.1,
   { s with
     executionQueue := fun t => if t = tabId then r.2 else s.executionQueue t })

/-- The `for (const id of queue)` loop shared by `clearTabExecutions` and
`cancelAllForTab`: walk the tab's queue, and for each id still pending,
clear its timer, reject its promise with `msg`, and delete it from the
table.  Returns the table and the settlement log after the loop, together
with the number of rejections performed. -/
def clearTabLoop (msg : String) :
    (String → Option PendingScriptExecution) → List Settlement → Nat →
    List String → (String → Option PendingScriptExecution) × List Settlement × Nat
  | p, log, n, [] => (p, log, n)
  | p, log, n, id :: rest =>
    match p id with
    | some _ =>
      clearTabLoop msg (fun i => if i = id then none else p i)
        (log ++ [.rejected id msg]) (n + 1) rest
    | none => clearTabLoop msg p log n rest

/-- `clearTabExecutions(tabId)`: on tab close, reject every pending
execution found in the tab's queue and drop the queue. -/
def clearTabExecutions (s : SEMState) (tabId : Nat) : SEMState :=
  let r := clearTabLoop ("Tab " ++ toString tabId ++ " closed")
    s.pendingExecutions s.settlements 0 (s.executionQueue tabId)
  { pendingExecutions := r.1
    executionQueue := fun t => if t = tabId then [] else s.executionQueue t
    settlements := r.2.1 }

/-- `cancelAllForTab(tabId)`: identical removal pattern with the
"conversation aborted" rejection message; returns the rejection count. -/
def cancelAllForTab (s : SEMState) (tabId : Nat) : SEMState × Nat :=
  let r := clearTabLoop "Execution cancelled - conversation aborted"
    s.pendingExecutions s.settlements 0 (s.executionQueue tabId)
  ({ pendingExecutions := r.1
     executionQueue := fun t => if t = tabId then [] else s.executionQueue t
     settlements := r.2.1 },
   r.2.2)

/-- The manager's operations, for invariant-preservation statements. -/
inductive SEMOp where
  | enqueue (tabId : Nat) (id code : String) (now : Nat)
  | timeout (id : String) (now : Nat)
  | resolve (id result : String)
  | reject (id error : String)
  | clearTab (tabId : Nat)
  | cancelTab (tabId : Nat)
  | dequeue (tabId : Nat)
deriving Repr

def applySEMOp (op : SEMOp) (s : SEMState) : SEMState :=
  match op with
  | .enqueue tabId id code now => queueScriptExecution s tabId id code now
  | .timeout id now => timeoutFire s id now
  | .resolve id result => (resolveScriptExecution s id result).1
  | .reject id error => (rejectScriptExecution s id error).1
  | .clearTab tabId => clearTabExecutions s tabId
  | .cancelTab tabId => (cancelAllForTab s tabId).1
  | .dequeue tabId => (getPendingScript s tabId).2

/-- Freshness of generated execution ids: the source builds
`script-exec-${tabId}-${counter++}-${Date.now()}` from a strictly
monotone counter, so a newly enqueued id is never already pending nor
already queued, and is non-empty. -/
def SEMFresh (op : SEMOp) (s : SEMState) : Prop :=
  match op with
  | .enqueue _ id _ _ =>
    s.pendingExecutions id = none ∧ (∀ t, id ∉ s.executionQueue t) ∧ id ≠ ""
  | _ => True

/-- Queue/table consistency: an id is a key of the pending-executions
table exactly when it occurs exactly once in the queue of its own tab
(and in no other tab's queue). -/
def SEMInv (s : SEMState) : Prop :=
  (∀ id e, s.pendingExecutions id = some e →
    (s.executionQueue e.tabId).count id = 1 ∧
    ∀ t, t ≠ e.tabId → id ∉ s.executionQueue t) ∧
  (∀ t id, id ∈ s.executionQueue t →
    ∃ e, s.pendingExecutions id = some e ∧ e.tabId = t)

/-! ## Conversation Manager

Embedding of the history-keeping revision of
`src/background/conversation-manager.ts` (the one that trims history,
builds one assistant message per step, and tracks token usage).

Messages are stored with their part structure (`text`, `tool-call`,
`tool-result`); the source flattens the same part list into one content
string with `assistantContent.join("\n")` when pushing, an operation that
neither trimming nor the terminal transitions inspect.  `Date.now()`
timestamps carried on every chunk are not modelled. -/

inductive Role where
  | user
  | assistant
deriving Repr, DecidableEq

inductive MessagePart where
  | text (text : String)
  | toolCall (toolCallId toolName args : String)
  | toolResult (toolCallId toolName result : String)
deriving Repr, DecidableEq

structure ChatMessage where
  role : Role
  parts : List MessagePart
deriving Repr, DecidableEq

/-- Outbound chunk buffered for the polling consumer. -/
inductive StreamChunk where
  | textDelta (data : String)
  | toolCall (toolCallId toolName args : String)
  | toolResult (toolCallId toolName result : String)
  | error (data : String)
  | finish
deriving Repr, DecidableEq

inductive ConvStatus where
  | streaming
  | completed
  | error
  | aborted
deriving Repr, DecidableEq

structure ConvState where
  id : String
  status : ConvStatus
  chunks : List StreamChunk
  fullText : String
  tabId : Nat
  messages : List ChatMessage
  totalInputTokens : Nat
  totalOutputTokens : Nat
deriving Repr, DecidableEq

/-- Fresh conversation record created by `startConversation` for an
unknown id. -/
def newConversationState (conversationId : String) (tabId : Nat) : ConvState :=
  { id := conversationId
    status := .streaming
    chunks := []
    fullText := ""
    tabId := tabId
    messages := []
    totalInputTokens := 0
    totalOutputTokens := 0 }

/-- The `startConversation` path taken when the conversation id already
exists: a fresh `AbortController` is installed (not modelled), the status
is reset to `streaming`, the chunk buffer is cleared, and the new user
prompt is appended to history. -/
def startConversationExisting (s : ConvState) (prompt : String) : ConvState :=
  { s with
    status := .streaming
    chunks := []
    messages := s.messages ++ [⟨.user, [.text prompt]⟩] }

/-- `abort(conversationId)` on a registered conversation: trigger the
abort controller and set the status to `aborted` — unconditionally. -/
def abortConversation (s : ConvState) : ConvState :=
  { s with status := .aborted }

def MAX_HISTORY_MESSAGES : Nat := 10

/-- History trimming performed at the top of `streamResponse`, before the
model call: keep the last `MAX_HISTORY_MESSAGES` entries
(`messages.slice(-MAX_HISTORY_MESSAGES)`). -/
def trimMessages (messages : List ChatMessage) : List ChatMessage :=
  if messages.length > MAX_HISTORY_MESSAGES then
    messages.drop (messages.length - MAX_HISTORY_MESSAGES)
  else messages

/-- Chunks of the AI SDK `fullStream` consumed by the orchestrator's
`for await` loop.  An `errorChunk` carries whether the wrapped error is
an `AI_NoSuchToolError` together with that error's fields. -/
inductive FullStreamChunk where
  | errorChunk (isNoSuchToolError : Bool) (toolName : String)
      (availableTools : List String) (message : String)
  | textDelta (textDelta : String)
  | toolCall (toolCallId toolName args : String)
  | toolResult (toolCallId toolName result : String)
  | stepFinish
  | finish
  | other
deriving Repr, DecidableEq

/-- One iteration of the `for await (const chunk of result.fullStream)`
loop: the `AI_NoSuchToolError` special case appends an error chunk and
continues; text deltas, tool calls and tool results are buffered as
chunks; every other chunk type is only logged. -/
def processChunk (s : ConvState) (c : FullStreamChunk) : ConvState :=
  match c with
  | .errorChunk isNoSuchToolError toolName availableTools _ =>
    if isNoSuchToolError then
      { s with chunks := s.chunks ++
          [.error ("Tool \"" ++ toolName ++ "\" does not exist. Available tools: "
            ++ String.intercalate ", " availableTools)] }
    else s
  | .textDelta d =>
    { s with chunks := s.chunks ++ [.textDelta d], fullText := s.fullText ++ d }
  | .toolCall tid name args =>
    { s with chunks := s.chunks ++ [.toolCall tid name args] }
  | .toolResult tid name result =>
    { s with chunks := s.chunks ++ [.toolResult tid name result] }
  | .stepFinish => s
  | .finish => s
  | .other => s

/-- Folding the whole `fullStream` through the loop body. -/
def processStream (s : ConvState) (cs : List FullStreamChunk) : ConvState :=
  cs.foldl processChunk s

/-- One AI SDK step as consumed by the history-building loop: its text,
its tool calls `(toolCallId, toolName, args)` and its tool results
`(toolCallId, toolName, result)`. -/
structure StepRecord where
  text : String
  toolCalls : List (String × String × String)
  toolResults : List (String × String × String)
deriving Repr, DecidableEq

/-- The single assistant-message part list built for one step: text (when
its trim is non-empty), then the step's tool calls, then its tool
results. -/
def stepAssistantParts (st : StepRecord) : List MessagePart :=
  (if st.text.trim.length > 0 then [MessagePart.text st.text] else [])
    ++ st.toolCalls.map (fun x => MessagePart.toolCall x.1 x.2.1 x.2.2)
    ++ st.toolResults.map (fun x => MessagePart.toolResult x.1 x.2.1 x.2.2)

/-- The `for (let i = 0; i < steps.length; i++)` loop: push one assistant
message per step whose part list is non-empty. -/
def appendStepMessages (msgs : List ChatMessage) (steps : List StepRecord) :
    List ChatMessage :=
  steps.foldl (fun acc st =>
    let parts := stepAssistantParts st
    if parts.length > 0 then acc ++ [⟨.assistant, parts⟩] else acc) msgs

/-- Successful termination of `streamResponse` (after the stream loop):
accumulate usage, append the per-step assistant messages, set status
`completed` and push the terminal `finish` chunk. -/
def finishSuccess (s : ConvState) (promptTokens completionTokens : Nat)
    (steps : List StepRecord) : ConvState :=
  { s with
    totalInputTokens := s.totalInputTokens + promptTokens
    totalOutputTokens := s.totalOutputTokens + completionTokens
    messages := appendStepMessages s.messages steps
    status := .completed
    chunks := s.chunks ++ [.finish] }

/-- The `catch` block of `streamResponse`: cancellation
(`signal.aborted`) sets status `aborted` and nothing else; a fatal error
sets status `error`, pops a trailing unprocessed `user` message, and
appends exactly one error chunk. -/
def handleStreamFailure (signalAborted : Bool) (errorMessage : String)
    (s : ConvState) : ConvState :=
  if signalAborted then { s with status := .aborted }
  else
    let messages :=
      match s.messages.getLast? with
      | some m => if m.role = .user then s.messages.dropLast else s.messages
      | none => s.messages
    { s with
      status := .error
      messages := messages
      chunks := s.chunks ++ [.error errorMessage] }

/-! ### Tool-use / tool-result pairing -/

def msgToolCallIds (m : ChatMessage) : List String :=
  m.parts.filterMap (fun p =>
    match p with
    | .toolCall tid _ _ => some tid
    | _ => none)

def msgToolResultIds (m : ChatMessage) : List String :=
  m.parts.filterMap (fun p =>
    match p with
    | .toolResult tid _ _ => some tid
    | _ => none)

/-- A message is internally paired when every tool-call id it carries has
a matching tool-result in the same message. -/
def messagePaired (m : ChatMessage) : Bool :=
  (msgToolCallIds m).all (fun tid => (msgToolResultIds m).contains tid)

/-- The pairing invariant over a history: every message is internally
paired, so no tool_use dangles without its tool_result. -/
def historyPaired (msgs : List ChatMessage) : Bool :=
  msgs.all messagePaired

/-! ### Error classification of tool results

The orchestrator itself never inspects tool-result content; this
classifier states, on the specification's side, when a result counts as
an error (an `error` field / a textual "not found" / "undefined"). -/

def strContains (s pat : String) : Bool :=
  decide (pat.toList <:+: s.toList)

def errorClassified (result : String) : Bool :=
  strContains result "error" || strContains result "not found"
    || strContains result "undefined"

/-! ## Model Client

Embedding of `doStream` in
`src/background/emergent-anthropic-provider.ts`: the fold from parsed SSE
events to AI SDK stream parts, including per-index reassembly of
incremental tool-argument JSON. -/

structure ToolCallBuf where
  id : String
  name : String
  argsText : String
deriving Repr, DecidableEq

/-- Stream parts of the AI SDK union that `doStream` can emit.  The
`errorPart` variant exists in the SDK type; this implementation enqueues
only the other three (stream-level failures go through
`controller.error`, tearing the stream down). -/
inductive StreamPart where
  | textDelta (textDelta : String)
  | toolCall (toolCallId toolName args : String)
  | finishPart (finishReason : String) (promptTokens completionTokens : Nat)
  | errorPart (message : String)
deriving Repr, DecidableEq

/-- Parsed SSE records, named and shaped as consumed by the `doStream`
event loop. -/
inductive SSEEvent where
  | messageStart (inputTokens : Nat)
  | blockStartText (index : Nat)
  | blockStartToolUse (index : Nat) (id name : String)
  | blockDeltaText (index : Nat) (text : String)
  | blockDeltaInputJson (index : Nat) (fragment : String)
  | blockStop (index : Nat)
  | messageDelta (stopReason : Option String) (outputTokens : Option Nat)
  | messageStop
deriving Repr, DecidableEq

structure DoStreamState where
  promptTokens : Nat
  completionTokens : Nat
  toolCalls : Nat → Option ToolCallBuf
  output : List StreamPart

def DoStreamState.initial : DoStreamState :=
  { promptTokens := 0
    completionTokens := 0
    toolCalls := fun _ => none
    output := [] }

/-- One iteration of the `for await (const { event, data } of
parseSSE(response))` loop. -/
def doStreamStep (st : DoStreamState) (ev : SSEEvent) : DoStreamState :=
  match ev with
  | .messageStart tokens => { st with promptTokens := tokens }
  | .blockStartText _ => st
  | .blockStartToolUse index tid name =>
    { st with toolCalls := fun i =>
        if i = index then some ⟨tid, name, ""⟩ else st.toolCalls i }
  | .blockDeltaText _ text =>
    { st with output := st.output ++ [.textDelta text] }
  | .blockDeltaInputJson index fragment =>
    match st.toolCalls index with
    | some tc =>
      { st with toolCalls := fun i =>
          if i = index then some { tc with argsText := tc.argsText ++ fragment }
          else st.toolCalls i }
    | none => st
  | .blockStop index =>
    match st.toolCalls index with
    | some tc =>
      let st1 :=
        if isValidJson tc.argsText then
          { st with output := st.output ++ [.toolCall tc.id tc.name tc.argsText] }
        else st
      { st1 with toolCalls := fun i => if i = index then none else st1.toolCalls i }
    | none => st
  | .messageDelta stopReason outputTokens =>
    let st1 :=
      match outputTokens with
      | some n => { st with completionTokens := n }
      | none => st
    match stopReason with
    | some reason =>
      let finishReason :=
        if reason = "end_turn" then "stop"
        else if reason = "tool_use" then "tool-calls"
        else "other"
      { st1 with output := st1.output ++
          [.finishPart finishReason st1.promptTokens st1.completionTokens] }
    | none => st1
  | .messageStop => st

/-- The whole event loop of one `doStream` call. -/
def doStreamRun (events : List SSEEvent) : DoStreamState :=
  events.foldl doStreamStep DoStreamState.initial

/-! ## Network cache entries and the network tools

`NetworkCacheEntry` follows the interface in
`src/background/cache-state.ts` (base fields as in the original
revision, plus the `hasWebRequestData` / `cookies` / `authHeaders`
metadata the tools read).  Bodies are `List Char` so that JavaScript
`substring` / `length` are character-level.  The tool `execute`
functions receive the cache lookup's result (`getEntriesForTab` /
`getCacheEntry`) as an argument. -/

structure AuthHeaderInfo where
  authorization : Option String
deriving Repr, DecidableEq

structure RequestInfo where
  url : String
  method : String
  headers : List (String × String)
  body : Option (List Char)
  timestamp : Nat
deriving Repr, DecidableEq

structure ResponseInfo where
  status : Nat
  statusText : String
  headers : List (String × String)
  body : Option (List Char)
  contentType : Option String
deriving Repr, DecidableEq

structure TimingInfo where
  startTime : Nat
  endTime : Nat
  durationMs : Nat
deriving Repr, DecidableEq

structure EntryMetadata where
  requestType : String
  hasError : Bool
  errorMessage : Option String
  hasWebRequestData : Bool
  cookies : Option (List String)
  authHeaders : Option AuthHeaderInfo
deriving Repr, DecidableEq

structure NetworkCacheEntry where
  id : String
  tabId : Nat
  capturedAt : Nat
  request : RequestInfo
  response : ResponseInfo
  timing : TimingInfo
  metadata : EntryMetadata
deriving Repr, DecidableEq

/-- The summary object `get_network_requests` maps each entry to. -/
structure RequestSummary where
  id : String
  url : String
  method : String
  status : Nat
  statusText : String
  contentType : Option String
  requestSize : Nat
  responseSize : Nat
  durationMs : Nat
  timestamp : Nat
  hasError : Bool
  hasWebRequestData : Bool
  hasCookies : Bool
  hasAuth : Bool
deriving Repr, DecidableEq

def summarizeEntry (r : NetworkCacheEntry) : RequestSummary :=
  { id := r.id
    url := r.request.url
    method := r.request.method
    status := r.response.status
    statusText := r.response.statusText
    contentType := r.response.contentType
    requestSize := (r.request.body.map List.length).getD 0
    responseSize := (r.response.body.map List.length).getD 0
    durationMs := r.timing.durationMs
    timestamp := r.request.timestamp
    hasError := r.metadata.hasError
    hasWebRequestData := r.metadata.hasWebRequestData
    hasCookies := ((r.metadata.cookies.map List.length).getD 0) > 0
    hasAuth :=
      match r.metadata.authHeaders.bind AuthHeaderInfo.authorization with
      | some a => a ≠ ""
      | none => false }

/-- JavaScript `x || d` for an optional non-negative number: `undefined`
and `0` both fall back to the default. -/
def jsOrDefault (v : Option Nat) (d : Nat) : Nat :=
  match v with
  | some n => if n = 0 then d else n
  | none => d

structure GetNetworkRequestsResult where
  total : Nat
  returned : Nat
  offset : Nat
  hasMore : Bool
  requests : List RequestSummary
deriving Repr, DecidableEq

/-- The `execute` body of the `get_network_requests` tool:
`limitNum = Math.min(limit || 10, 20)`, `offsetNum = offset || 0`,
`limited = requests.slice(offsetNum, offsetNum + limitNum)`. -/
def get_network_requests_execute (requests : List NetworkCacheEntry)
    (limit offset : Option Nat) : GetNetworkRequestsResult :=
  let limitNum := min (jsOrDefault limit 10) 20
  let offsetNum := jsOrDefault offset 0
  let limited := (requests.drop offsetNum).take limitNum
  { total := requests.length
    returned := limited.length
    offset := offsetNum
    hasMore := decide (offsetNum + limitNum < requests.length)
    requests := limited.map summarizeEntry }

inductive BodyType where
  | request
  | response
deriving Repr, DecidableEq

def BodyType.asString : BodyType → String
  | .request => "request"
  | .response => "response"

structure BodyChunkOk where
  requestId : String
  bodyType : BodyType
  offset : Nat
  chunkSize : Nat
  totalSize : Nat
  hasMore : Bool
  nextOffset : Option Nat
  chunk : List Char
deriving Repr, DecidableEq

inductive BodyChunkResult where
  | error (message : String)
  | ok (r : BodyChunkOk)
deriving Repr, DecidableEq

/-- JavaScript `s.substring(start, stop)` for `start ≤ stop` (the only
shape the embedded code uses), with the usual clamping to the string's
length. -/
def jsSubstring (s : List Char) (start stop : Nat) : List Char :=
  (s.drop start).take (stop - start)

/-- The `execute` body of the `get_request_body_chunk` tool.  `entry` is
the result of `getCacheEntry(requestId, tabId)`; `offset` and `length`
already carry their destructuring defaults (0 and 2000). -/
def get_request_body_chunk_execute (entry : Option NetworkCacheEntry)
    (requestId : String) (bodyType : BodyType) (offset length : Nat) :
    BodyChunkResult :=
  match entry with
  | none => .error ("Request not found: " ++ requestId)
  | some request =>
    let body :=
      match bodyType with
      | .request => request.request.body
      | .response => request.response.body
    match body with
    | none =>
      .error ("No " ++ bodyType.asString ++ " body available for this request")
    | some body =>
      let maxLength := min length 5000
      let chunk := jsSubstring body offset (offset + maxLength)
      let totalSize := body.length
      let hasMore := decide (offset + maxLength < totalSize)
      .ok
        { requestId := requestId
          bodyType := bodyType
          offset := offset
          chunkSize := chunk.length
          totalSize := totalSize
          hasMore := hasMore
          nextOffset := if hasMore then some (offset + maxLength) else none
          chunk := chunk }

/-! ## Fixtures -/

/-- A network-cache entry with a two-character response body and no
request body. -/
def sampleEntry : NetworkCacheEntry :=
  { id := "fetch-1-1-100"
    tabId := 1
    capturedAt := 100
    request :=
      { url := "https://example.com/api"
        method := "GET"
        headers := []
        body := none
        timestamp := 100 }
    response :=
      { status := 200
        statusText := "OK"
        headers := []
        body := some ['h', 'i']
        contentType := some "text/plain" }
    timing := { startTime := 0, endTime := 5, durationMs := 5 }
    metadata :=
      { requestType := "fetch"
        hasError := false
        errorMessage := none
        hasWebRequestData := false
        cookies := none
        authHeaders := none } }

/-- An error-classified tool result (textual "not found" plus an error
field marker), as `get_request_details` produces for a missing id. -/
def exErrorResult : String := "error: Request not found: req-9"

/-- A `fullStream` in which the same tool fails three consecutive times
with an error-classified result. -/
def exLoopStream : List FullStreamChunk :=
  [.toolCall "t1" "get_request_details" "\x7b\x7d",
   .toolResult "t1" "get_request_details" exErrorResult,
   .toolCall "t2" "get_request_details" "\x7b\x7d",
   .toolResult "t2" "get_request_details" exErrorResult,
   .toolCall "t3" "get_request_details" "\x7b\x7d",
   .toolResult "t3" "get_request_details" exErrorResult]

def isErrorChunk : StreamChunk → Bool
  | .error _ => true
  | _ => false

/-- A conversation record whose status is already terminal
(`completed`). -/
def exCompletedConv : ConvState :=
  { newConversationState "conv-1" 1 with status := .completed }

/-- An eleven-message history of internally paired messages. -/
def exMsgs11 : List ChatMessage :=
  ⟨.user, [.text "hello"]⟩ ::
    List.replicate 10
      ⟨.assistant,
        [.toolCall "t1" "get_cache_statistics" "\x7b\x7d",
         .toolResult "t1" "get_cache_statistics" "ok"]⟩

/-! ## Claim C1 — loop detection -/

/-- C1 (counterexample).  The claim asserts that after three consecutive
error-classified results from the same tool the orchestrator emits an
error chunk and moves the status to `error`.  On a stream carrying three
consecutive error-classified `get_request_details` results, the stream
fold leaves the status `streaming`, buffers no error chunk at all, and
the subsequent normal completion sets the status to `completed`, not
`error`: the orchestrator has no loop detection. -/
theorem c1_counterexample :
    errorClassified exErrorResult = true ∧
    (processStream (newConversationState "conv-c1" 1) exLoopStream).status
      = .streaming ∧
    ((processStream (newConversationState "conv-c1" 1) exLoopStream).chunks.filter
      isErrorChunk) = [] ∧
    (finishSuccess (processStream (newConversationState "conv-c1" 1) exLoopStream)
      5 5 []).status = .completed := by
  decide

/-- C1 (amended): the orchestrator performs no loop detection.  A
`tool-result` chunk — error-classified or not — is appended to the chunk
buffer as an ordinary `tool-result` chunk and changes nothing else: no
error chunk is emitted, the status is unchanged, and no
consecutive-failure state exists in the conversation record.  (Repeated
tool misuse is bounded only by the AI SDK `maxSteps` setting.) -/
theorem c1_no_loop_detection (s : ConvState) (tid name result : String) :
    processChunk s (.toolResult tid name result)
      = { s with chunks := s.chunks ++ [.toolResult tid name result] } ∧
    (processChunk s (.toolResult tid name result)).status = s.status := by
  exact ⟨rfl, rfl⟩

/-! ## Claim C2 — history trimming -/

/-- C2: `trimMessages` (run at the top of `streamResponse`, before the
model call) bounds the history by `MAX_HISTORY_MESSAGES = 10`, drops
oldest entries first (the result is a suffix of the input), and
preserves the tool_use/tool_result pairing invariant — trimming keeps
whole messages and each message carries its tool results alongside its
tool calls, so no pair is split at the boundary.  A history exactly at
the bound is untouched; at the bound plus one it is trimmed by exactly
one message. -/
theorem c2_history_trimming (msgs : List ChatMessage) :
    (trimMessages msgs).length ≤ MAX_HISTORY_MESSAGES ∧
    trimMessages msgs <:+ msgs ∧
    (historyPaired msgs = true → historyPaired (trimMessages msgs) = true) ∧
    (msgs.length ≤ MAX_HISTORY_MESSAGES → trimMessages msgs = msgs) ∧
    (msgs.length = MAX_HISTORY_MESSAGES + 1 → trimMessages msgs = msgs.drop 1) := by
  have hsuffix : ∀ n, msgs.drop n <:+ msgs := fun n => List.drop_suffix n msgs
  have hpair : historyPaired msgs = true →
      ∀ n, historyPaired (msgs.drop n) = true := by
    intro h n
    rw [historyPaired, List.all_eq_true] at h ⊢
    exact fun m hm => h m (List.mem_of_mem_drop hm)
  unfold trimMessages
  by_cases h : msgs.length > MAX_HISTORY_MESSAGES
  · rw [if_pos h]
    refine ⟨?_, hsuffix _, fun hp => hpair hp _, ?_, ?_⟩
    · rw [List.length_drop, Nat.sub_sub_self (le_of_lt h)]
    · intro hle; exact absurd h (not_lt.mpr hle)
    · intro heq; rw [heq]; simp
  · rw [if_neg h]
    exact ⟨not_lt.mp h, List.suffix_refl msgs,
      fun hp => hp, fun _ => rfl,
      fun heq => absurd (heq ▸ Nat.lt_succ_self MAX_HISTORY_MESSAGES) h⟩

/-- C2 (witness): the eleven-message paired history is trimmed by exactly
one message and stays paired. -/
theorem c2_history_trimming_witness :
    historyPaired exMsgs11 = true ∧
    trimMessages exMsgs11 = exMsgs11.drop 1 ∧
    historyPaired (trimMessages exMsgs11) = true := by
  refine ⟨by decide, (c2_history_trimming exMsgs11).2.2.2.2 (by decide), ?_⟩
  exact (c2_history_trimming exMsgs11).2.2.1 (by decide)

/-! ## Claim C3 — status monotonicity -/

/-- C3 (counterexample).  The claim asserts that once a terminal status
is reached, neither `start` on the same conversation id nor `abort`
changes it.  On a conversation whose status is `completed`, `abort`
overwrites the status to `aborted` (a different terminal status), and
`startConversation` on the existing id resets it to `streaming`. -/
theorem c3_counterexample :
    exCompletedConv.status = .completed ∧
    (abortConversation exCompletedConv).status = .aborted ∧
    (startConversationExisting exCompletedConv "again").status = .streaming := by
  decide

/-- C3 (amended): within one `streamResponse` run the status moves from
`streaming` to exactly one terminal value — `completed` on success,
`aborted` on cancellation, `error` on a fatal error — and the stream fold
itself never changes the status.  However the terminal statuses are not
absorbing across operations: `abort` sets `aborted` unconditionally and
`startConversation` on an existing id resets the status to `streaming`
(deliberate continuation support). -/
theorem c3_status_transitions (s : ConvState) (err prompt : String)
    (pt ct : Nat) (steps : List StepRecord) :
    (finishSuccess s pt ct steps).status = .completed ∧
    (handleStreamFailure true err s).status = .aborted ∧
    (handleStreamFailure false err s).status = .error ∧
    (abortConversation s).status = .aborted ∧
    (startConversationExisting s prompt).status = .streaming ∧
    (∀ c, (processChunk s c).status = s.status) := by
  refine ⟨rfl, rfl, ?_, rfl, rfl, ?_⟩
  · unfold handleStreamFailure
    simp only [Bool.false_eq_true, if_false]
  · intro c
    cases c with
    | errorChunk isTool name avail msg =>
      unfold processChunk
      by_cases h : isTool = true <;> simp [h]
    | _ => rfl

/-! ## Claim C4 — tool-argument reassembly -/

/-- SSE events of a tool_use block whose accumulated argument text is not
valid JSON. -/
def exBadArgsEvents : List SSEEvent :=
  [.blockStartToolUse 0 "toolu_1" "get_request_details",
   .blockDeltaInputJson 0 "[",
   .blockStop 0]

/-- C4 (counterexample).  The claim asserts that a parse failure at
`BlockStop` produces a `ToolArgsParseError` protocol event.  On a block
whose accumulated arguments are the invalid JSON `"["`, the fold emits
nothing at all — no tool call, but also no error event of any kind; the
failure is only logged and the buffer dropped. -/
theorem c4_counterexample :
    isValidJson "[" = false ∧
    (doStreamRun exBadArgsEvents).output = [] ∧
    (doStreamRun exBadArgsEvents).toolCalls 0 = none := by
  decide

/-- C4 (amended): the client accumulates incremental JSON fragments in a
per-index buffer (emitting nothing while accumulating) and parses the
buffer exactly once, at the block's stop event.  If the buffer is valid
JSON, exactly one completed tool-call part is emitted, carrying the
buffered text as its arguments; if not, the block is dropped silently —
no tool call and no protocol event.  Either way the buffer for that index
is discarded. -/
theorem c4_reassembly (st : DoStreamState) (index : Nat) (tc : ToolCallBuf)
    (h : st.toolCalls index = some tc) (fragment : String) :
    ((doStreamStep st (.blockDeltaInputJson index fragment)).toolCalls index
        = some { tc with argsText := tc.argsText ++ fragment } ∧
     (doStreamStep st (.blockDeltaInputJson index fragment)).output = st.output) ∧
    ((doStreamStep st (.blockStop index)).toolCalls index = none ∧
     (doStreamStep st (.blockStop index)).output
        = if isValidJson tc.argsText
          then st.output ++ [.toolCall tc.id tc.name tc.argsText]
          else st.output) := by
  simp only [doStreamStep]
  rw [h]
  refine ⟨⟨by simp, rfl⟩, ⟨?_, ?_⟩⟩
  · by_cases hv : isValidJson tc.argsText = true <;> simp [hv]
  · by_cases hv : isValidJson tc.argsText = true <;> simp [hv]

/-- The stream state after a tool_use block start and one valid-JSON
fragment. -/
def exBufSt : DoStreamState :=
  doStreamRun
    [.blockStartToolUse 0 "toolu_1" "get_cache_statistics",
     .blockDeltaInputJson 0 "[]"]

/-- C4 (witness): at the stop event of a block whose buffer holds the
valid JSON `"[]"`, exactly one tool-call part with those arguments is
emitted and the buffer is discarded. -/
theorem c4_reassembly_witness :
    (doStreamStep exBufSt (.blockStop 0)).toolCalls 0 = none ∧
    (doStreamStep exBufSt (.blockStop 0)).output
      = exBufSt.output ++ [.toolCall "toolu_1" "get_cache_statistics" "[]"] := by
  have h := c4_reassembly exBufSt 0 ⟨"toolu_1", "get_cache_statistics", "[]"⟩
    (by decide) ""
  refine ⟨h.2.1, ?_⟩
  rw [h.2.2]
  have hv : isValidJson "[]" = true := by decide
  rw [hv]
  simp

/-! ## Claim C7 — get_network_requests with limit = 0 -/

/-- C7 (counterexample).  The claim asserts that `limit = 0` yields an
empty `requests` array, `returned = 0`, and `hasMore = (total > 0)`.
With one cached entry and `limit = 0`, the JavaScript `limit || 10`
treats `0` as absent: the call returns the entry (`returned = 1`,
`requests` non-empty) and `hasMore = false` although `total = 1 > 0`. -/
theorem c7_counterexample :
    (get_network_requests_execute [sampleEntry] (some 0) none).total = 1 ∧
    (get_network_requests_execute [sampleEntry] (some 0) none).returned = 1 ∧
    (get_network_requests_execute [sampleEntry] (some 0) none).requests ≠ [] ∧
    (get_network_requests_execute [sampleEntry] (some 0) none).hasMore = false := by
  decide

/-- C7 (amended): `limit = 0` is falsy in `limit || 10`, so the call
behaves exactly as if `limit` were omitted: the effective limit is the
default 10, up to 10 entries are returned from the offset, and
`hasMore = offset + 10 < total`. -/
theorem c7_limit_zero_is_default (entries : List NetworkCacheEntry)
    (offset : Option Nat) :
    get_network_requests_execute entries (some 0) offset
      = get_network_requests_execute entries none offset := by
  rfl

/-! ## Claim C8 — get_request_body_chunk at offset = totalSize -/

/-- Body selected by the tool's `bodyType` argument. -/
def entryBody (e : NetworkCacheEntry) : BodyType → Option (List Char)
  | .request => e.request.body
  | .response => e.response.body

/-- C8: for a cached request whose requested body is present, calling
`get_request_body_chunk` with `offset` equal to the body's total size
returns `chunkSize = 0`, `hasMore = false`, `nextOffset = null`, an empty
chunk, and `totalSize` equal to the body length — for every requested
`length`. -/
theorem c8_body_chunk_at_end (e : NetworkCacheEntry) (requestId : String)
    (bodyType : BodyType) (len : Nat) (body : List Char)
    (hbody : entryBody e bodyType = some body) :
    get_request_body_chunk_execute (some e) requestId bodyType body.length len
      = .ok
          { requestId := requestId
            bodyType := bodyType
            offset := body.length
            chunkSize := 0
            totalSize := body.length
            hasMore := false
            nextOffset := none
            chunk := [] } := by
  have hchunk : jsSubstring body body.length (body.length + min len 5000) = [] := by
    unfold jsSubstring
    rw [List.drop_length]
    exact List.take_nil
  have hmore : ¬ body.length + min len 5000 < body.length :=
    Nat.not_lt.mpr (Nat.le_add_right _ _)
  cases bodyType with
  | request =>
    have hb : e.request.body = some body := hbody
    simp [get_request_body_chunk_execute, hb, hchunk, hmore]
  | response =>
    have hb : e.response.body = some body := hbody
    simp [get_request_body_chunk_execute, hb, hchunk, hmore]

/-- C8 (witness): on the sample entry's two-character response body,
asking for the chunk at offset 2 returns the empty chunk with
`hasMore = false` and `nextOffset = null`. -/
theorem c8_body_chunk_at_end_witness :
    get_request_body_chunk_execute (some sampleEntry) "fetch-1-1-100"
        .response 2 2000
      = .ok
          { requestId := "fetch-1-1-100"
            bodyType := .response
            offset := 2
            chunkSize := 0
            totalSize := 2
            hasMore := false
            nextOffset := none
            chunk := [] } :=
  c8_body_chunk_at_end sampleEntry "fetch-1-1-100" .response 2000 ['h', 'i']
    (by decide)

/-! ## Claim C9 — terminal-transition discipline -/

/-- C9: in the `catch` block of `streamResponse`, a fatal
(non-cancellation) failure sets the status to `error`, removes a trailing
unprocessed `user` message (and only such a message), and appends exactly
one error chunk; a cancellation (abort signal observed) sets the status
to `aborted` and changes nothing else — in particular no error chunk is
appended. -/
theorem c9_terminal_transitions (s : ConvState) (err : String) :
    ((handleStreamFailure false err s).status = .error ∧
     (handleStreamFailure false err s).chunks = s.chunks ++ [.error err] ∧
     (∀ m, s.messages.getLast? = some m → m.role = .user →
        (handleStreamFailure false err s).messages = s.messages.dropLast) ∧
     ((∀ m, s.messages.getLast? = some m → m.role ≠ .user) →
        (handleStreamFailure false err s).messages = s.messages)) ∧
    handleStreamFailure true err s = { s with status := .aborted } := by
  have hfatal : handleStreamFailure false err s =
      { s with
        status := .error
        messages :=
          match s.messages.getLast? with
          | some m => if m.role = .user then s.messages.dropLast else s.messages
          | none => s.messages
        chunks := s.chunks ++ [.error err] } := rfl
  refine ⟨⟨by rw [hfatal], by rw [hfatal], ?_, ?_⟩, rfl⟩
  · intro m hm hrole
    rw [hfatal]
    show (match s.messages.getLast? with
          | some m => if m.role = .user then s.messages.dropLast else s.messages
          | none => s.messages) = s.messages.dropLast
    rw [hm]
    simp [hrole]
  · intro hforall
    rw [hfatal]
    show (match s.messages.getLast? with
          | some m => if m.role = .user then s.messages.dropLast else s.messages
          | none => s.messages) = s.messages
    cases hm : s.messages.getLast? with
    | none => rfl
    | some m =>
      have hne := hforall m hm
      cases hr : m.role with
      | user => exact absurd hr hne
      | assistant => simp [hr]

/-- C9 (witness): on a concrete conversation whose history ends in an
unprocessed user message, a fatal failure pops that message and appends
one error chunk, while a cancellation only flips the status. -/
theorem c9_terminal_transitions_witness :
    (handleStreamFailure false "boom"
        (startConversationExisting (newConversationState "conv-9" 1) "hi")).messages
      = [] ∧
    (handleStreamFailure false "boom"
        (startConversationExisting (newConversationState "conv-9" 1) "hi")).chunks
      = [.error "boom"] ∧
    (handleStreamFailure true "boom"
        (startConversationExisting (newConversationState "conv-9" 1) "hi")).status
      = .aborted := by
  have h := c9_terminal_transitions
    (startConversationExisting (newConversationState "conv-9" 1) "hi") "boom"
  refine ⟨?_, ?_, ?_⟩
  · have := h.1.2.2.1 ⟨.user, [.text "hi"]⟩ (by decide) (by decide)
    rw [this]
    decide
  · rw [h.1.2.1]
    decide
  · rw [h.2]

/-! ## Claim C5 — script-execution timeout and poisoning -/

/-- C5: once the 30-second deadline of a pending execution has passed,
the timer callback rejects the promise with the timeout error and removes
the pending entry; afterwards (and after any earlier rejection) the id is
poisoned: `resolveScriptExecution` and `rejectScriptExecution` on an id
with no pending entry return `false` and leave the state exactly as it
was — no settlement, no queue or table change. -/
theorem c5_timeout_poisoning (s : SEMState) (id : String)
    (e : PendingScriptExecution) (now : Nat)
    (hp : s.pendingExecutions id = some e)
    (hd : e.timestamp + SCRIPT_EXECUTION_TIMEOUT_MS ≤ now) :
    ((timeoutFire s id now).settlements
        = s.settlements ++ [.rejected id (timeoutMessage id)] ∧
     (timeoutFire s id now).pendingExecutions id = none) ∧
    (∀ s2 : SEMState, s2.pendingExecutions id = none →
      (∀ result, resolveScriptExecution s2 id result = (s2, false)) ∧
      (∀ err, rejectScriptExecution s2 id err = (s2, false))) ∧
    (∀ err, (rejectScriptExecution s id err).1.pendingExecutions id = none) := by
  refine ⟨⟨?_, ?_⟩, ?_, ?_⟩
  · simp [timeoutFire, hp, hd, SEMState.deletePending, SEMState.removeFromQueue,
      SEMState.settle]
  · simp [timeoutFire, hp, hd, SEMState.deletePending, SEMState.removeFromQueue,
      SEMState.settle]
  · intro s2 h2
    exact ⟨fun result => by simp [resolveScriptExecution, h2],
           fun err => by simp [rejectScriptExecution, h2]⟩
  · intro err
    simp [rejectScriptExecution, hp, SEMState.deletePending,
      SEMState.removeFromQueue, SEMState.settle]

/-- The manager's state after enqueueing one execution for tab 1 at time
5 ms. -/
def exSEMQueued : SEMState :=
  queueScriptExecution SEMState.empty 1 "script-exec-1-0-5" "1+1" 5

/-- C5 (witness): the concrete execution enqueued at 5 ms times out at
30005 ms with the timeout rejection, its entry disappears, and a late
`resolve` is a no-op returning `false`. -/
theorem c5_timeout_poisoning_witness :
    (timeoutFire exSEMQueued "script-exec-1-0-5" 30005).settlements
      = [.rejected "script-exec-1-0-5" (timeoutMessage "script-exec-1-0-5")] ∧
    (timeoutFire exSEMQueued "script-exec-1-0-5" 30005).pendingExecutions
        "script-exec-1-0-5" = none ∧
    resolveScriptExecution (timeoutFire exSEMQueued "script-exec-1-0-5" 30005)
        "script-exec-1-0-5" "late"
      = (timeoutFire exSEMQueued "script-exec-1-0-5" 30005, false) := by
  have h := c5_timeout_poisoning exSEMQueued "script-exec-1-0-5"
    ⟨"script-exec-1-0-5", 1, "1+1", 5⟩ 30005 (by decide) (by decide)
  refine ⟨?_, h.1.2, (h.2.1 _ h.1.2).1 "late"⟩
  rw [h.1.1]
  rfl

/-! ## Claim C6 — dequeue is non-destructive and FIFO -/

/-- C6: `getPendingScript` never touches the pending-executions table,
and when the head of the tab's FIFO queue is a live pending execution
(non-empty id with a table entry, which the consistency invariant
guarantees), it returns exactly that head — at most one entry per call —
leaves the queue unchanged, and a repeated dequeue before resolution
returns the same head again. -/
theorem c6_dequeue_nondestructive (s : SEMState) (tabId : Nat) :
    (getPendingScript s tabId).2.pendingExecutions = s.pendingExecutions ∧
    (∀ id rest e, s.executionQueue tabId = id :: rest → id ≠ "" →
      s.pendingExecutions id = some e →
      (getPendingScript s tabId).1 = some (id, e.code) ∧
      (∀ t, (getPendingScript s tabId).2.executionQueue t = s.executionQueue t) ∧
      (getPendingScript (getPendingScript s tabId).2 tabId).1
        = some (id, e.code)) := by
  constructor
  · rfl
  · intro id rest e hq hne hp
    have hgo : getPendingScriptGo s.pendingExecutions (id :: rest)
        = (some (id, e.code), id :: rest) := by
      simp [getPendingScriptGo, hne, hp]
    have hfst : (getPendingScript s tabId).1 = some (id, e.code) := by
      simp [getPendingScript, hq, hgo]
    have hqueue : ∀ t,
        (getPendingScript s tabId).2.executionQueue t = s.executionQueue t := by
      intro t
      by_cases ht : t = tabId
      · subst ht
        simp [getPendingScript, hq, hgo]
      · simp [getPendingScript, ht]
    refine ⟨hfst, hqueue, ?_⟩
    have hpend : (getPendingScript s tabId).2.pendingExecutions
        = s.pendingExecutions := rfl
    have hq2 : (getPendingScript s tabId).2.executionQueue tabId = id :: rest := by
      rw [hqueue tabId, hq]
    simp only [getPendingScript, hpend]
    rw [hq]
    simp [hgo]

/-- C6 (witness): on the concrete single-entry queue, dequeue returns the
queued execution, keeps its table entry, and a second dequeue returns the
same head. -/
theorem c6_dequeue_witness :
    (getPendingScript exSEMQueued 1).1 = some ("script-exec-1-0-5", "1+1") ∧
    (getPendingScript (getPendingScript exSEMQueued 1).2 1).1
      = some ("script-exec-1-0-5", "1+1") ∧
    (getPendingScript exSEMQueued 1).2.pendingExecutions "script-exec-1-0-5"
      = some ⟨"script-exec-1-0-5", 1, "1+1", 5⟩ := by
  have h := (c6_dequeue_nondestructive exSEMQueued 1).2 "script-exec-1-0-5" []
    ⟨"script-exec-1-0-5", 1, "1+1", 5⟩ (by decide) (by decide) (by decide)
  refine ⟨h.1, h.2.2, ?_⟩
  rw [(c6_dequeue_nondestructive exSEMQueued 1).1]
  decide

/-! ## Claim C10 — queue/table consistency -/

/-- The pending table after the teardown loop: exactly the ids of the
tab's queue have been deleted. -/
theorem clearTabLoop_pending_eq (msg : String) :
    ∀ (ids : List String) (p : String → Option PendingScriptExecution)
      (log : List Settlement) (n : Nat) (x : String),
      (clearTabLoop msg p log n ids).1 x = if x ∈ ids then none else p x := by
  intro ids
  induction ids with
  | nil => intro p log n x; simp [clearTabLoop]
  | cons id rest ih =>
    intro p log n x
    cases hpid : p id with
    | some e =>
      simp only [clearTabLoop, hpid]
      rw [ih]
      by_cases hx : x = id
      · subst hx
        by_cases hr : x ∈ rest <;> simp [hr, List.mem_cons]
      · simp [hx, List.mem_cons]
    | none =>
      simp only [clearTabLoop, hpid]
      rw [ih]
      by_cases hx : x = id
      · subst hx
        by_cases hr : x ∈ rest <;> simp [hr, hpid, List.mem_cons]
      · simp [hx, List.mem_cons]

/-- Removing one pending execution `id` (resolve / reject / timeout all
share this shape: delete the table entry, erase the id from its own
tab's queue) preserves the consistency invariant. -/
theorem SEMInv_removal_core (s : SEMState) (id : String)
    (e : PendingScriptExecution) (hInv : SEMInv s)
    (hp : s.pendingExecutions id = some e) (s' : SEMState)
    (hpend : ∀ i, s'.pendingExecutions i
      = if i = id then none else s.pendingExecutions i)
    (hqueue : ∀ t, s'.executionQueue t
      = if t = e.tabId then (s.executionQueue e.tabId).erase id
        else s.executionQueue t) :
    SEMInv s' := by
  obtain ⟨hInv1, hInv2⟩ := hInv
  constructor
  · intro id' e' h'
    rw [hpend id'] at h'
    by_cases hid : id' = id
    · rw [if_pos hid] at h'
      cases h'
    · rw [if_neg hid] at h'
      obtain ⟨hcount, hnotin⟩ := hInv1 id' e' h'
      constructor
      · rw [hqueue e'.tabId]
        by_cases ht : e'.tabId = e.tabId
        · rw [if_pos ht, List.count_erase_of_ne hid, ← ht]
          exact hcount
        · rw [if_neg ht]
          exact hcount
      · intro t ht
        rw [hqueue t]
        by_cases hte : t = e.tabId
        · rw [if_pos hte]
          intro hmem
          exact hnotin t ht (hte ▸ List.mem_of_mem_erase hmem)
        · rw [if_neg hte]
          exact hnotin t ht
  · intro t id'' hmem
    rw [hqueue t] at hmem
    have hid'' : id'' ≠ id := by
      intro hEq
      subst hEq
      by_cases hte : t = e.tabId
      · rw [if_pos hte] at hmem
        have hone : (s.executionQueue e.tabId).count id'' = 1 := (hInv1 id'' e hp).1
        have hzero : ((s.executionQueue e.tabId).erase id'').count id'' = 0 := by
          rw [List.count_erase_self, hone]
        exact absurd hmem (List.count_eq_zero.mp hzero)
      · rw [if_neg hte] at hmem
        exact (hInv1 id'' e hp).2 t hte hmem
    have hmem2 : id'' ∈ s.executionQueue t := by
      by_cases hte : t = e.tabId
      · rw [if_pos hte] at hmem
        exact hte ▸ List.mem_of_mem_erase hmem
      · rw [if_neg hte] at hmem
        exact hmem
    obtain ⟨e'', he'', htab⟩ := hInv2 t id'' hmem2
    refine ⟨e'', ?_, htab⟩
    rw [hpend id'', if_neg hid'']
    exact he''

/-- Enqueueing a fresh execution preserves the consistency invariant. -/
theorem SEMInv_enqueue (s : SEMState) (tabId : Nat) (id code : String)
    (now : Nat) (hInv : SEMInv s)
    (_hfp : s.pendingExecutions id = none)
    (hfq : ∀ t, id ∉ s.executionQueue t) :
    SEMInv (queueScriptExecution s tabId id code now) := by
  obtain ⟨hInv1, hInv2⟩ := hInv
  constructor
  · intro id' e' h'
    simp only [queueScriptExecution] at h' ⊢
    by_cases hid : id' = id
    · rw [if_pos hid] at h'
      cases h'
      constructor
      · rw [if_pos rfl, List.count_append]
        rw [List.count_eq_zero.mpr (hid ▸ hfq tabId)]
        simp [hid]
      · intro t ht
        rw [if_neg ht]
        exact hid ▸ hfq t
    · rw [if_neg hid] at h'
      obtain ⟨hcount, hnotin⟩ := hInv1 id' e' h'
      constructor
      · by_cases ht : e'.tabId = tabId
        · rw [if_pos ht, List.count_append, ← ht, hcount]
          simp [hid]
        · rw [if_neg ht]
          exact hcount
      · intro t ht
        by_cases htt : t = tabId
        · rw [if_pos htt]
          intro hmem
          rcases List.mem_append.mp hmem with hmem1 | hmem2
          · exact hnotin t ht (htt ▸ hmem1)
          · exact hid (List.mem_singleton.mp hmem2)
        · rw [if_neg htt]
          exact hnotin t ht
  · intro t id'' hmem
    simp only [queueScriptExecution] at hmem ⊢
    by_cases htt : t = tabId
    · rw [if_pos htt] at hmem
      rcases List.mem_append.mp hmem with hmem1 | hmem2
      · have hne : id'' ≠ id := fun hEq => hfq tabId (hEq ▸ hmem1)
        obtain ⟨e'', he'', htab⟩ := hInv2 tabId id'' hmem1
        exact ⟨e'', by rw [if_neg hne]; exact he'', htt ▸ htab⟩
      · have hEq : id'' = id := List.mem_singleton.mp hmem2
        exact ⟨⟨id, tabId, code, now⟩, by rw [if_pos hEq], htt.symm⟩
    · rw [if_neg htt] at hmem
      have hne : id'' ≠ id := fun hEq => hfq t (hEq ▸ hmem)
      obtain ⟨e'', he'', htab⟩ := hInv2 t id'' hmem
      exact ⟨e'', by rw [if_neg hne]; exact he'', htab⟩

/-- Tearing down a whole tab (`clearTabExecutions` / `cancelAllForTab`)
preserves the consistency invariant. -/
theorem SEMInv_clear_core (s : SEMState) (tabId : Nat) (hInv : SEMInv s)
    (s' : SEMState)
    (hpend : ∀ i, s'.pendingExecutions i
      = if i ∈ s.executionQueue tabId then none else s.pendingExecutions i)
    (hqueue : ∀ t, s'.executionQueue t
      = if t = tabId then [] else s.executionQueue t) :
    SEMInv s' := by
  obtain ⟨hInv1, hInv2⟩ := hInv
  constructor
  · intro id' e' h'
    rw [hpend id'] at h'
    by_cases hmem : id' ∈ s.executionQueue tabId
    · rw [if_pos hmem] at h'
      cases h'
    · rw [if_neg hmem] at h'
      obtain ⟨hcount, hnotin⟩ := hInv1 id' e' h'
      have htab : e'.tabId ≠ tabId := by
        intro hEq
        apply hmem
        rw [← hEq]
        exact List.count_pos_iff.mp (by rw [hcount]; exact Nat.one_pos)
      refine ⟨by rw [hqueue, if_neg htab]; exact hcount, ?_⟩
      intro t ht
      rw [hqueue t]
      by_cases htt : t = tabId
      · rw [if_pos htt]
        simp
      · rw [if_neg htt]
        exact hnotin t ht
  · intro t id'' hmem
    rw [hqueue t] at hmem
    by_cases htt : t = tabId
    · rw [if_pos htt] at hmem
      cases hmem
    · rw [if_neg htt] at hmem
      obtain ⟨e'', he'', htab⟩ := hInv2 t id'' hmem
      have hnotin : id'' ∉ s.executionQueue tabId :=
        (hInv1 id'' e'' he'').2 tabId (by rw [htab]; exact Ne.symm htt)
      exact ⟨e'', by rw [hpend, if_neg hnotin]; exact he'', htab⟩

/-- Under the consistency invariant, a dequeue leaves every queue
unchanged (the head, when present, is live, and an empty-id head is
served as `null` without shifting). -/
theorem getPendingScript_queue_eq (s : SEMState) (tabId : Nat)
    (hInv : SEMInv s) :
    ∀ t, (getPendingScript s tabId).2.executionQueue t = s.executionQueue t := by
  intro t
  by_cases ht : t = tabId
  · subst ht
    cases hqt : s.executionQueue t with
    | nil => simp [getPendingScript, hqt, getPendingScriptGo]
    | cons id rest =>
      by_cases hid : id = ""
      · simp [getPendingScript, hqt, getPendingScriptGo, hid]
      · obtain ⟨e, he, _⟩ := hInv.2 t id (by rw [hqt]; exact List.mem_cons_self id rest)
        simp [getPendingScript, hqt, getPendingScriptGo, hid, he]
  · simp [getPendingScript, ht]

/-- A dequeue preserves the consistency invariant. -/
theorem SEMInv_dequeue (s : SEMState) (tabId : Nat) (hInv : SEMInv s) :
    SEMInv (getPendingScript s tabId).2 := by
  have hq := getPendingScript_queue_eq s tabId hInv
  obtain ⟨hInv1, hInv2⟩ := hInv
  constructor
  · intro id' e' h'
    obtain ⟨hcount, hnotin⟩ := hInv1 id' e' h'
    exact ⟨by rw [hq]; exact hcount, fun t ht => by rw [hq]; exact hnotin t ht⟩
  · intro t id'' hmem
    rw [hq] at hmem
    exact hInv2 t id'' hmem

/-- Anything `getPendingScriptGo` serves is a live pending execution
whose id occurs in the inspected queue. -/
theorem getPendingScriptGo_sound
    (p : String → Option PendingScriptExecution) :
    ∀ (q : List String) (id code : String),
      (getPendingScriptGo p q).1 = some (id, code) →
      ∃ e, p id = some e ∧ e.code = code ∧ id ∈ q := by
  intro q
  induction q with
  | nil =>
    intro id code h
    simp [getPendingScriptGo] at h
  | cons hd rest ih =>
    intro id code h
    by_cases hhd : hd = ""
    · simp [getPendingScriptGo, hhd] at h
    · cases hph : p hd with
      | some e =>
        simp only [getPendingScriptGo, hph, if_neg hhd] at h
        obtain ⟨h1, h2⟩ := Prod.mk.injEq .. ▸ Option.some.inj h
        exact ⟨e, h1 ▸ hph, h2, h1 ▸ List.mem_cons_self hd rest⟩
      | none =>
        simp only [getPendingScriptGo, hph, if_neg hhd] at h
        obtain ⟨e, he, hc, hm⟩ := ih id code h
        exact ⟨e, he, hc, List.mem_cons_of_mem hd hm⟩

/-- C10: every operation of the Script Execution Queue — enqueue of a
fresh id, timeout firing, resolve, reject, tab teardown, cancel-all, and
dequeue — preserves the invariant that an id is a key of the
pending-executions table exactly when it occurs exactly once in the queue
of its own tab (and in no other tab's queue); and everything
`getPendingScript` serves refers to a live pending execution of the
polled tab, orphaned heads being cleaned up rather than served. -/
theorem c10_queue_table_consistency (s : SEMState) (op : SEMOp)
    (hInv : SEMInv s) (hFresh : SEMFresh op s) :
    SEMInv (applySEMOp op s) ∧
    (∀ tabId id code, (getPendingScript s tabId).1 = some (id, code) →
      ∃ e, s.pendingExecutions id = some e ∧ e.tabId = tabId ∧ e.code = code) := by
  constructor
  · cases op with
    | enqueue tabId id code now =>
      obtain ⟨h1, h2, _⟩ := hFresh
      exact SEMInv_enqueue s tabId id code now hInv h1 h2
    | timeout id now =>
      show SEMInv (timeoutFire s id now)
      cases hp : s.pendingExecutions id with
      | none =>
        simp only [timeoutFire, hp]
        exact hInv
      | some e =>
        by_cases hd : e.timestamp + SCRIPT_EXECUTION_TIMEOUT_MS ≤ now
        · refine SEMInv_removal_core s id e hInv hp _ ?_ ?_
          · intro i
            simp [timeoutFire, hp, hd, SEMState.deletePending,
              SEMState.removeFromQueue, SEMState.settle]
          · intro t
            simp [timeoutFire, hp, hd, SEMState.deletePending,
              SEMState.removeFromQueue, SEMState.settle]
        · simp only [timeoutFire, hp, if_neg hd]
          exact hInv
    | resolve id result =>
      show SEMInv (resolveScriptExecution s id result).1
      cases hp : s.pendingExecutions id with
      | none =>
        simp only [resolveScriptExecution, hp]
        exact hInv
      | some e =>
        refine SEMInv_removal_core s id e hInv hp _ ?_ ?_
        · intro i
          simp [resolveScriptExecution, hp, SEMState.deletePending,
            SEMState.removeFromQueue, SEMState.settle]
        · intro t
          simp [resolveScriptExecution, hp, SEMState.deletePending,
            SEMState.removeFromQueue, SEMState.settle]
    | reject id error =>
      show SEMInv (rejectScriptExecution s id error).1
      cases hp : s.pendingExecutions id with
      | none =>
        simp only [rejectScriptExecution, hp]
        exact hInv
      | some e =>
        refine SEMInv_removal_core s id e hInv hp _ ?_ ?_
        · intro i
          simp [rejectScriptExecution, hp, SEMState.deletePending,
            SEMState.removeFromQueue, SEMState.settle]
        · intro t
          simp [rejectScriptExecution, hp, SEMState.deletePending,
            SEMState.removeFromQueue, SEMState.settle]
    | clearTab tabId =>
      refine SEMInv_clear_core s tabId hInv _ ?_ ?_
      · intro i
        show (clearTabExecutions s tabId).pendingExecutions i = _
        simp only [clearTabExecutions]
        rw [clearTabLoop_pending_eq]
      · intro t
        rfl
    | cancelTab tabId =>
      refine SEMInv_clear_core s tabId hInv _ ?_ ?_
      · intro i
        show (cancelAllForTab s tabId).1.pendingExecutions i = _
        simp only [cancelAllForTab]
        rw [clearTabLoop_pending_eq]
      · intro t
        rfl
    | dequeue tabId =>
      exact SEMInv_dequeue s tabId hInv
  · intro tabId id code h
    obtain ⟨e, he, hc, hm⟩ := getPendingScriptGo_sound s.pendingExecutions
      (s.executionQueue tabId) id code h
    obtain ⟨e2, he2, ht2⟩ := hInv.2 tabId id hm
    have hee : e = e2 := Option.some.inj (he ▸ he2)
    exact ⟨e, he, hee ▸ ht2, hc⟩

/-- C10 (witness): the invariant holds after a fresh enqueue into the
empty manager state. -/
theorem c10_queue_table_consistency_witness :
    SEMInv (applySEMOp (.enqueue 1 "script-exec-1-0-0" "2+2" 0) SEMState.empty) := by
  have hInv : SEMInv SEMState.empty :=
    ⟨fun id e h => by simp [SEMState.empty] at h,
     fun t id h => by simp [SEMState.empty] at h⟩
  exact (c10_queue_table_consistency SEMState.empty
    (.enqueue 1 "script-exec-1-0-0" "2+2" 0) hInv
    ⟨rfl, fun t => by simp [SEMState.empty], by decide⟩).1

end SecShield
